import Mathlib

/-!
Shallow embedding of the Scientific-Dataset-Analyzer-Cleaner repository:
the cleaning pipeline of `scriptes/data_cleaner.py` (class `DataCleaner`)
and the file splitter of `split_csv.py`.

Modelling conventions:
* A cell of a numeric column is an `Option ℚ` (`none` = NaN/missing);
  rationals stand in for the floating-point values (the spec requires no
  precision beyond standard statistics, and all claim-relevant arithmetic
  is exact).
* A cell of a text column is an `Option String` (`none` = NaN/missing).
* A dataframe is an ordered list of named, typed columns.
* Fallible code is embedded in `Except String`; a caught Python exception
  corresponds to matching on `.error`.
* Library calls (`Series.mean`, `Series.mode`, `Series.quantile`,
  `pd.to_numeric`, `pd.to_datetime`, `KNNImputer.fit_transform`) are
  modelled by their documented semantics; `fit_transform` and the date
  parsers are parameters, since their internals are external to the repo.
-/

/-- A numeric cell: `none` models NaN (missing). -/
abbrev NCell := Option ℚ

/-- A text cell: `none` models NaN (missing). -/
abbrev SCell := Option String

/-- The data held by one dataframe column, tagged with its dtype
(`num` = numeric dtype, `txt` = object/string dtype, `date` = datetime64,
which only arises from `convert_data_types`). -/
inductive ColData where
  | num (cells : List NCell)
  | txt (cells : List SCell)
  | date (cells : List SCell)
  deriving DecidableEq, Repr

/-- A dataframe: ordered columns, each a name with its data. -/
abbrev Dataset := List (String × ColData)

/-- Number of cells in a column. -/
def ColData.length : ColData → Nat
  | .num cs => cs.length
  | .txt cs => cs.length
  | .date cs => cs.length

/-- `True` exactly on datetime columns (which never occur in a freshly
loaded dataframe: `read_csv` yields only numeric and object columns). -/
def ColData.isDate : ColData → Bool
  | .date _ => true
  | _ => false

/-- The list of per-column cell counts of a dataframe. -/
def colLengths (df : Dataset) : List Nat := df.map (fun c => c.2.length)

/-- The non-missing values of a numeric column (pandas skips NaN). -/
def nmQ (cells : List NCell) : List ℚ := cells.filterMap id

/-- The non-missing values of a text column. -/
def nmS (cells : List SCell) : List String := cells.filterMap id

/-- `Series.mean()`: arithmetic mean of the non-missing values; NaN
(`none`) when every value is missing. -/
def meanQ (cells : List NCell) : NCell :=
  let vs := nmQ cells
  if vs.isEmpty then none else some (vs.sum / vs.length)

/-- `Series.mode()` on an object column: the distinct non-missing values
of maximal frequency, sorted in ascending order (pandas sorts the modes);
empty when every value is missing. -/
def modeList (cells : List SCell) : List String :=
  let vs := nmS cells
  let cands := vs.dedup.filter (fun v => decide (∀ w ∈ vs.dedup, vs.count w ≤ vs.count v))
  List.insertionSort (· ≤ ·) cands

/-- Numeric-column pass of `impute_missing_values`
(`data_cleaner.py` lines 23-27): a column with a missing cell is filled
with `Series.mean()`; `fillna(NaN)` (the all-missing case) changes
nothing. -/
def imputeNumCol (cells : List NCell) : List NCell :=
  if cells.any (·.isNone) then
    match meanQ cells with
    | none => cells
    | some m => cells.map (fun c => some (c.getD m))
  else cells

/-- Categorical-column pass of `impute_missing_values`
(`data_cleaner.py` lines 30-34): a column with a missing cell is filled
with `mode()[0]`; indexing an empty mode list (all values missing)
raises a `KeyError`, which the method does not catch. -/
def imputeTxtCol (cells : List SCell) : Except String (List SCell) :=
  if cells.any (·.isNone) then
    match (modeList cells).head? with
    | none => .error "KeyError: 0"
    | some m => .ok (cells.map (fun c => some (c.getD m)))
  else .ok cells

/-- The loop over categorical columns in `impute_missing_values`:
an uncaught exception in one column aborts the whole loop. -/
def imputeTxtPass : Dataset → Except String Dataset
  | [] => .ok []
  | (n, .txt cs) :: rest => do
      let cs' ← imputeTxtCol cs
      let rest' ← imputeTxtPass rest
      pure ((n, .txt cs') :: rest')
  | c :: rest => do
      let rest' ← imputeTxtPass rest
      pure (c :: rest')

/-- Effect of the numeric loop of `impute_missing_values` on one column:
numeric columns are mean-imputed, all others are untouched. -/
def numPassCol (c : String × ColData) : String × ColData :=
  match c with
  | (n, .num cs) => (n, .num (imputeNumCol cs))
  | other => other

/-- `DataCleaner.impute_missing_values` (lines 13-34): first every
numeric column is mean-imputed (this loop cannot raise), then every
object column is mode-imputed (this loop can raise). -/
def impute_missing_values (df : Dataset) : Except String Dataset :=
  imputeTxtPass (df.map numPassCol)

/-- `select_dtypes(include=[np.number])`: the numeric columns, in order. -/
def numericCols (df : Dataset) : List (String × List NCell) :=
  df.filterMap (fun c => match c with
    | (n, .num cs) => some (n, cs)
    | _ => none)

/-- Lines 50-53 of `knn_imputation`: infinities are replaced by NaN (the
identity here, since rational cells carry no infinities) and columns that
are entirely NaN are dropped (`dropna(axis=1, how='all')`). -/
def keptCols (df : Dataset) : List (String × List NCell) :=
  (numericCols df).filter (fun c => c.2.any (·.isSome))

/-- Column-major numeric matrix, as returned by `fit_transform`. -/
abbrev Cols := List (List ℚ)

/-- `self.df[col] = values` for an existing numeric column: pandas raises
when the length of the assigned values differs from the dataframe's
length (here: from the replaced column's length, the same thing for a
rectangular dataframe). -/
def setNumCol : Dataset → String → List ℚ → Except String Dataset
  | [], n, _ => .error ("KeyError: " ++ n)
  | (m, cd) :: rest, n, cells =>
    if m = n then
      if cd.length = cells.length then .ok ((m, ColData.num (cells.map some)) :: rest)
      else .error "Length of values does not match length of index"
    else
      match setNumCol rest n cells with
      | .error e => .error e
      | .ok rest' => .ok ((m, cd) :: rest')

/-- The write-back loop of `knn_imputation` (lines 63-64): column `i` of
the imputed matrix is assigned to the `i`-th kept column, one column at a
time; a raised exception leaves the assignments already made in place
(in-place mutation) and aborts the loop. A missing matrix column is an
`IndexError`. -/
def writeBack (df : Dataset) : List String → Cols → Dataset × Option String
  | [], _ => (df, none)
  | _ :: _, [] => (df, some "IndexError")
  | n :: ns, c :: cs =>
    match setNumCol df n c with
    | .error e => (df, some e)
    | .ok df' => writeBack df' ns cs

/-- Body of the `try` block of `knn_imputation` (lines 41-70), returning
the dataframe state at exit together with the caught exception, if any.
`fit` models `KNNImputer(n_neighbors=min(5, len(data)-1)).fit_transform`
on the column-major numeric data; it is a parameter because scikit-learn
is external to the repository. -/
def knnBody (fit : List (List NCell) → Except String Cols) (df : Dataset) :
    Dataset × Option String :=
  if (numericCols df).isEmpty then (df, none)
  else
    let kept := keptCols df
    if kept.isEmpty then (df, none)
    else
      match fit (kept.map (·.2)) with
      | .error e => (df, some e)
      | .ok mat => writeBack df (kept.map (·.1)) mat

/-- `DataCleaner.knn_imputation` (lines 36-74): the whole body runs under
`try/except`, so the method always returns, with whatever dataframe state
exists when an exception is caught. -/
def knn_imputation (fit : List (List NCell) → Except String Cols) (df : Dataset) : Dataset :=
  (knnBody fit df).1

/-- Ascending sort of rationals. -/
def sortQ (l : List ℚ) : List ℚ := List.insertionSort (· ≤ ·) l

/-- `Series.quantile(q)` with the default linear interpolation, NaN
excluded: with the `n` non-missing values in ascending order and
`h = q·(n−1)`, the result is `xs[⌊h⌋] + (h−⌊h⌋)·(xs[⌊h⌋+1] − xs[⌊h⌋])`;
NaN (`none`) when every value is missing. -/
def quantile (q : ℚ) (cells : List NCell) : NCell :=
  let xs := sortQ (nmQ cells)
  if xs.isEmpty then none
  else
    let n := xs.length
    let h : ℚ := q * ((n : ℚ) - 1)
    let lo := (⌊h⌋).toNat
    let x0 := xs.getD lo 0
    let x1 := xs.getD (lo + 1) x0
    some (x0 + (h - (⌊h⌋ : ℚ)) * (x1 - x0))

/-- Per-column body of `handle_outliers` (lines 83-104): bounds
`[Q1 − 1.5·IQR, Q3 + 1.5·IQR]` from the column's current values; every
value below the lower bound becomes the lower bound and every value above
the upper bound becomes the upper bound (NaN compares false, so missing
cells are untouched; a column with no non-missing value has NaN
quantiles, so nothing is capped). -/
def capCol (cells : List NCell) : List NCell :=
  match quantile (1/4) cells, quantile (3/4) cells with
  | some q1, some q3 =>
    let iqr := q3 - q1
    let lb := q1 - 3/2 * iqr
    let ub := q3 + 3/2 * iqr
    cells.map (fun c => c.map (fun v => if v < lb then lb else if v > ub then ub else v))
  | _, _ => cells

/-- `DataCleaner.handle_outliers` (lines 76-106): caps every numeric
column; the per-column `try/except` never fires in this pure model. -/
def handle_outliers (df : Dataset) : Dataset :=
  df.map (fun c => match c with
    | (n, .num cs) => (n, ColData.num (capCol cs))
    | other => other)

/-- Value of one decimal digit character. -/
def digitVal (c : Char) : Nat := c.toNat - 48

/-- Natural number denoted by a digit string. -/
def digitsToNat (ds : List Char) : Nat := ds.foldl (fun a c => a * 10 + digitVal c) 0

/-- `pd.to_numeric` on a single string (model): an optional sign followed
by a decimal literal (`"12"`, `"3.5"`, `"-7."`, `"+.25"`); anything else
fails. -/
def parseNum (s : String) : Option ℚ :=
  let cs := s.toList
  let signAndRest : ℚ × List Char :=
    match cs with
    | '-' :: r => (-1, r)
    | '+' :: r => (1, r)
    | r => (1, r)
  let sign := signAndRest.1
  match (signAndRest.2).span (·.isDigit) with
  | (intPart, []) =>
      if intPart.isEmpty then none
      else some (sign * (digitsToNat intPart : ℚ))
  | (intPart, '.' :: fracPart) =>
      if fracPart.all (·.isDigit) && !(intPart.isEmpty && fracPart.isEmpty) then
        some (sign * ((digitsToNat intPart : ℚ) +
          (digitsToNat fracPart : ℚ) / ((10 : ℚ) ^ fracPart.length)))
      else none
  | _ => none

/-- Bool test for "the first list is a prefix of the second". -/
def hasPrefixChars : List Char → List Char → Bool
  | [], _ => true
  | _ :: _, [] => false
  | p :: ps, c :: cs => (p = c) && hasPrefixChars ps cs

/-- Bool test for "the first list occurs contiguously in the second". -/
def hasSubChars (pat : List Char) : List Char → Bool
  | [] => pat.isEmpty
  | c :: cs => hasPrefixChars pat (c :: cs) || hasSubChars pat cs

/-- `'date' in col.lower()` (line 114), on the column name's characters. -/
def containsDate (name : String) : Bool :=
  hasSubChars "date".toList (name.toList.map Char.toLower)

/-- The numeric-conversion loop body of `convert_data_types`
(lines 123-131) for one object column: `pd.to_numeric(col,
errors='coerce')` maps every cell through `parseNum` (unparseable and
missing cells become NaN); the column is replaced by the coerced values
when the result has at least one non-null entry (`notnull().any()`),
otherwise it is left unchanged. -/
def convertTxtCol (cells : List SCell) : ColData :=
  let conv : List NCell := cells.map (fun c => c.bind parseNum)
  if conv.any (·.isSome) then .num conv else .txt cells

/-- `DataCleaner.convert_data_types` (lines 108-131): columns whose name
contains `"date"` (case-insensitive) go through `pd.to_datetime(...,
errors='coerce')`, modelled by the parameters `dparseS` (on strings) and
`dparseN` (on numbers, interpreted as epochs); every remaining object
column goes through the numeric-conversion loop. -/
def convert_data_types (dparseS : String → Option String) (dparseN : ℚ → Option String)
    (df : Dataset) : Dataset :=
  df.map (fun c => match c with
    | (n, .txt cs) =>
        if containsDate n then (n, ColData.date (cs.map (·.bind dparseS)))
        else (n, convertTxtCol cs)
    | (n, .num cs) =>
        if containsDate n then (n, ColData.date (cs.map (·.bind dparseN)))
        else (n, ColData.num cs)
    | other => other)

/-- `DataCleaner.clean_data` (lines 163-170): the four dataset
transformations in order; `generate_cleaning_report` and
`save_cleaned_data` only perform I/O and do not change the dataframe. An
uncaught exception (from `impute_missing_values`) aborts the pipeline. -/
def clean_data (fit : List (List NCell) → Except String Cols)
    (dparseS : String → Option String) (dparseN : ℚ → Option String)
    (df : Dataset) : Except String Dataset := do
  let d1 ← impute_missing_values df
  let d2 := knn_imputation fit d1
  let d3 := handle_outliers d2
  pure (convert_data_types dparseS dparseN d3)

/-- `math.ceil(a / b)` for natural `a` and positive natural `b`. -/
def ceilDiv (a b : Nat) : Nat := (a + b - 1) / b

/-- The primary path of `split_csv` (`split_csv.py` lines 27-51): with
`s = ceil(total_rows / num_splits)`, split `i` (0-based) is
`df.iloc[i·s : min((i+1)·s, total_rows)]`. -/
def split_csv {α : Type} (rows : List α) (numSplits : Nat) : List (List α) :=
  let s := ceilDiv rows.length numSplits
  (List.range numSplits).map (fun i => (rows.drop (i * s)).take s)

/-- The candidate delimiters of `split_csv` (line 13), in order. -/
def delims : List Char := [',', '\t', ';', '|']

/-- `first_line.count(d)`. -/
def countChar (line : String) (d : Char) : Nat := line.toList.count d

/-- Python `max` on a list of naturals (the candidate-count list is
nonempty, so the `0` seed is inert). -/
def pyMax (l : List Nat) : Nat := l.foldl Nat.max 0

/-- Python `list.index(v)`: index of the first occurrence of `v`. -/
def pyIndex (v : Nat) : List Nat → Nat
  | [] => 0
  | x :: xs => if x = v then 0 else pyIndex v xs + 1

/-- Delimiter detection of `split_csv` (lines 10-15):
`delimiters[counts.index(max(counts))]` over the first line. -/
def detectDelimiter (line : String) : Char :=
  let counts := delims.map (countChar line)
  delims.getD (pyIndex (pyMax counts) counts) ','

/-! ### Generic helper lemmas -/

theorem listMapId {α : Type} {l : List α} {f : α → α} (h : ∀ a ∈ l, f a = a) :
    l.map f = l := by
  induction l with
  | nil => rfl
  | cons x xs ih =>
    simp only [List.map_cons]
    rw [h x (by simp), ih (fun a ha => h a (by simp [ha]))]

theorem existsCountMax {α : Type} (f : α → Nat) (l : List α) (h : l ≠ []) :
    ∃ a ∈ l, ∀ b ∈ l, f b ≤ f a := by
  induction l with
  | nil => exact absurd rfl h
  | cons x xs ih =>
    cases xs with
    | nil => exact ⟨x, by simp, by simp⟩
    | cons y ys =>
      obtain ⟨a, ha, hmax⟩ := ih (by simp)
      by_cases hc : f a ≤ f x
      · refine ⟨x, by simp, ?_⟩
        intro b hb
        rcases List.mem_cons.mp hb with rfl | hb
        · exact le_refl _
        · exact le_trans (hmax b hb) hc
      · refine ⟨a, by simp [ha], ?_⟩
        intro b hb
        rcases List.mem_cons.mp hb with rfl | hb
        · exact le_of_not_le hc
        · exact hmax b hb

/-! ### Properties of the modelled `Series.mode` -/

theorem modeList_ne_nil (cells : List SCell) (h : nmS cells ≠ []) :
    modeList cells ≠ [] := by
  obtain ⟨a, ha, hmax⟩ :=
    existsCountMax (fun v => (nmS cells).count v) (nmS cells).dedup
      (by simpa [List.dedup_eq_nil] using h)
  have hmem : a ∈ (nmS cells).dedup.filter
      (fun v => decide (∀ w ∈ (nmS cells).dedup, (nmS cells).count w ≤ (nmS cells).count v)) :=
    List.mem_filter.mpr ⟨ha, decide_eq_true hmax⟩
  intro hnil
  have hperm := List.perm_insertionSort (α := String) (· ≤ ·)
    ((nmS cells).dedup.filter
      (fun v => decide (∀ w ∈ (nmS cells).dedup, (nmS cells).count w ≤ (nmS cells).count v)))
  rw [show List.insertionSort (· ≤ ·)
      ((nmS cells).dedup.filter
        (fun v => decide (∀ w ∈ (nmS cells).dedup, (nmS cells).count w ≤ (nmS cells).count v)))
      = modeList cells from rfl, hnil] at hperm
  rw [hperm.symm.eq_nil] at hmem
  exact absurd hmem (List.not_mem_nil a)

theorem modeList_head_spec (cells : List SCell) (m : String)
    (h : (modeList cells).head? = some m) :
    m ∈ nmS cells ∧ (∀ v ∈ nmS cells, (nmS cells).count v ≤ (nmS cells).count m) ∧
      (∀ v ∈ nmS cells, (nmS cells).count v = (nmS cells).count m → m ≤ v) := by
  have hperm := List.perm_insertionSort (α := String) (· ≤ ·)
    ((nmS cells).dedup.filter
      (fun v => decide (∀ w ∈ (nmS cells).dedup, (nmS cells).count w ≤ (nmS cells).count v)))
  have hsorted := List.sorted_insertionSort (α := String) (· ≤ ·)
    ((nmS cells).dedup.filter
      (fun v => decide (∀ w ∈ (nmS cells).dedup, (nmS cells).count w ≤ (nmS cells).count v)))
  have hml : List.insertionSort (· ≤ ·)
      ((nmS cells).dedup.filter
        (fun v => decide (∀ w ∈ (nmS cells).dedup, (nmS cells).count w ≤ (nmS cells).count v)))
      = modeList cells := rfl
  rw [hml] at hperm hsorted
  obtain ⟨t, ht⟩ : ∃ t, modeList cells = m :: t := by
    cases hcase : modeList cells with
    | nil => rw [hcase] at h; exact absurd h (by simp)
    | cons a t =>
      rw [hcase] at h
      simp only [List.head?_cons, Option.some.injEq] at h
      exact ⟨t, by rw [h]⟩
  have hm_mode : m ∈ modeList cells := by rw [ht]; exact List.mem_cons_self m t
  have hm_cands := hperm.subset hm_mode
  obtain ⟨hm_dedup, hm_prop⟩ := List.mem_filter.mp hm_cands
  have hm_max : ∀ w ∈ (nmS cells).dedup, (nmS cells).count w ≤ (nmS cells).count m :=
    of_decide_eq_true hm_prop
  refine ⟨List.mem_dedup.mp hm_dedup, ?_, ?_⟩
  · intro v hv
    exact hm_max v (List.mem_dedup.mpr hv)
  · intro v hv hcount
    have hv_cands : v ∈ (nmS cells).dedup.filter
        (fun w => decide (∀ u ∈ (nmS cells).dedup, (nmS cells).count u ≤ (nmS cells).count w)) := by
      refine List.mem_filter.mpr ⟨List.mem_dedup.mpr hv, decide_eq_true ?_⟩
      intro u hu
      rw [hcount]
      exact hm_max u hu
    have hv_mode : v ∈ modeList cells := hperm.mem_iff.mpr hv_cands
    rw [ht] at hv_mode hsorted
    rcases List.mem_cons.mp hv_mode with rfl | hv_t
    · exact le_refl v
    · exact List.rel_of_sorted_cons hsorted v hv_t

/-! ### C4: outlier capping with IQR = 0 flattens the column -/

/-- C4: in `handle_outliers`, a numeric column whose quartiles coincide
(IQR = 0) gets bounds equal to that single quartile value, and every
non-missing value different from it is capped to it, flattening the
column to a single value; no guard prevents this. -/
theorem iqr_zero_flattens (cells : List NCell) (q : ℚ)
    (h1 : quantile (1/4) cells = some q) (h3 : quantile (3/4) cells = some q) :
    capCol cells = cells.map (Option.map (fun _ => q)) := by
  unfold capCol
  rw [h1, h3]
  refine List.map_congr_left ?_
  intro c _
  cases c with
  | none => rfl
  | some v =>
    simp only [Option.map_some']
    congr 1
    rw [show q - 3/2 * (q - q) = q by ring, show q + 3/2 * (q - q) = q by ring]
    rcases lt_trichotomy v q with hlt | heq | hgt
    · rw [if_pos hlt]
    · subst heq
      simp [lt_irrefl]
    · rw [if_neg (not_lt.mpr (le_of_lt hgt)), if_pos hgt]

/-- Witness for C4 at the column `[5,5,5,5,100]`, whose quartiles are
both 5: every value is flattened to 5. -/
theorem iqr_zero_flattens_witness :
    quantile (1/4) [some 5, some 5, some 5, some 5, some 100] = some 5 ∧
    quantile (3/4) [some 5, some 5, some 5, some 5, some 100] = some 5 ∧
    capCol [some 5, some 5, some 5, some 5, some 100] =
      [some 5, some 5, some 5, some 5, some 5] := by
  have hs : sortQ (nmQ [some 5, some 5, some 5, some 5, some 100]) = [5, 5, 5, 5, 100] := by
    norm_num [sortQ, nmQ, List.filterMap, List.insertionSort, List.orderedInsert]
  have hf1 : ⌊(1/4 : ℚ) * ((5 : ℚ) - 1)⌋ = 1 := by norm_num [Int.floor_eq_iff]
  have hf3 : ⌊(3/4 : ℚ) * ((5 : ℚ) - 1)⌋ = 3 := by norm_num [Int.floor_eq_iff]
  have hq1 : quantile (1/4) [some 5, some 5, some 5, some 5, some 100] = some 5 := by
    unfold quantile
    rw [hs]
    norm_num [hf1, List.getD]
  have hq3 : quantile (3/4) [some 5, some 5, some 5, some 5, some 100] = some 5 := by
    unfold quantile
    rw [hs]
    norm_num [hf3, List.getD, show Int.toNat 3 = 3 from rfl,
      List.getElem_cons_succ, List.getElem_cons_zero]
  refine ⟨hq1, hq3, ?_⟩
  have h := iqr_zero_flattens [some 5, some 5, some 5, some 5, some 100] 5 hq1 hq3
  simpa using h

/-! ### C8: capping is a no-op on a column already within its bounds -/

/-- C8: applying `handle_outliers` to a numeric column whose non-missing
values all lie within `[Q1 − 1.5·IQR, Q3 + 1.5·IQR]`, with the quartiles
computed from the column's current values, leaves every cell unchanged. -/
theorem capping_noop_within_bounds (cells : List NCell) (q1 q3 : ℚ)
    (h1 : quantile (1/4) cells = some q1) (h3 : quantile (3/4) cells = some q3)
    (hin : ∀ v ∈ nmQ cells,
      q1 - 3/2 * (q3 - q1) ≤ v ∧ v ≤ q3 + 3/2 * (q3 - q1)) :
    capCol cells = cells := by
  unfold capCol
  rw [h1, h3]
  refine listMapId ?_
  intro c hc
  cases c with
  | none => rfl
  | some v =>
    have hv : v ∈ nmQ cells := List.mem_filterMap.mpr ⟨some v, hc, rfl⟩
    obtain ⟨hl, hr⟩ := hin v hv
    simp only [Option.map_some']
    rw [if_neg (not_lt.mpr hl), if_neg (not_lt.mpr hr)]

/-- Witness for C8 at `[1,2,3,4]` (Q1 = 7/4, Q3 = 13/4, bounds
[−1/2, 11/2]): capping changes nothing. -/
theorem capping_noop_within_bounds_witness :
    quantile (1/4) [some 1, some 2, some 3, some 4] = some (7/4) ∧
    quantile (3/4) [some 1, some 2, some 3, some 4] = some (13/4) ∧
    capCol [some 1, some 2, some 3, some 4] = [some 1, some 2, some 3, some 4] := by
  have hs : sortQ (nmQ [some 1, some 2, some 3, some 4]) = [1, 2, 3, 4] := by
    norm_num [sortQ, nmQ, List.filterMap, List.insertionSort, List.orderedInsert]
  have hf1 : ⌊(1/4 : ℚ) * ((4 : ℚ) - 1)⌋ = 0 := by norm_num [Int.floor_eq_iff]
  have hf3 : ⌊(3/4 : ℚ) * ((4 : ℚ) - 1)⌋ = 2 := by norm_num [Int.floor_eq_iff]
  have hq1 : quantile (1/4) [some 1, some 2, some 3, some 4] = some (7/4) := by
    unfold quantile
    rw [hs]
    norm_num [hf1, List.getD]
  have hq3 : quantile (3/4) [some 1, some 2, some 3, some 4] = some (13/4) := by
    unfold quantile
    rw [hs]
    norm_num [hf3, List.getD, show Int.toNat 2 = 2 from rfl,
      List.getElem_cons_succ, List.getElem_cons_zero]
  refine ⟨hq1, hq3, ?_⟩
  refine capping_noop_within_bounds [some 1, some 2, some 3, some 4] (7/4) (13/4) hq1 hq3 ?_
  intro v hv
  have hv' : v = 1 ∨ v = 2 ∨ v = 3 ∨ v = 4 := by
    simpa [nmQ, List.filterMap] using hv
  rcases hv' with rfl | rfl | rfl | rfl <;> constructor <;> norm_num

/-! ### C3: the splitter's primary path -/

theorem chunksFlatten {α : Type} (s : Nat) :
    ∀ (N : Nat) (xs : List α),
      ((List.range N).map (fun i => (xs.drop (i * s)).take s)).flatten = xs.take (N * s) := by
  intro N
  induction N with
  | zero => intro xs; simp
  | succ n ih =>
    intro xs
    rw [List.range_succ_eq_map, List.map_cons, List.map_map, List.flatten_cons]
    have hcomp : ((List.range n).map ((fun i => (xs.drop (i * s)).take s) ∘ Nat.succ)) =
        (List.range n).map (fun i => ((xs.drop s).drop (i * s)).take s) := by
      refine List.map_congr_left ?_
      intro i _
      simp only [Function.comp_apply]
      rw [List.drop_drop]
      congr 2
      rw [Nat.succ_mul]
      exact Nat.add_comm _ _
    rw [hcomp, ih (xs.drop s)]
    rw [Nat.zero_mul, List.drop_zero]
    rw [show (n + 1) * s = s + n * s by ring, List.take_add]

theorem le_mul_ceilDiv (R N : Nat) (hN : 1 ≤ N) : R ≤ N * ceilDiv R N := by
  unfold ceilDiv
  have h1 := Nat.div_add_mod (R + N - 1) N
  have h2 : (R + N - 1) % N < N := Nat.mod_lt _ (by omega)
  generalize hq : (R + N - 1) / N = q at h1
  generalize hp : N * q = p at h1 ⊢
  omega

/-- Counterexample to C3 as stated: splitting a 1-row input into 3 parts
gives parts of sizes [1, 0, 0]; the second (non-last) part does not have
`ceil(R/N) = ceil(1/3) = 1` rows, so the "all splits have size ceil(R/N),
only the last receives the (smaller) remainder" shape fails. -/
theorem split_csv_sizes_counterexample :
    ((split_csv [(0 : Nat)] 3).map List.length = [1, 0, 0]) ∧ ceilDiv 1 3 = 1 ∧
    ¬ (∀ i, i < 3 - 1 → ((split_csv [(0 : Nat)] 3).getD i []).length = ceilDiv 1 3) := by
  decide

/-- C3 (amended): for `N ≥ 1`, the primary path of `split_csv` yields
exactly `N` parts; part `i` is the contiguous range of rows
`[i·s, min((i+1)·s, R))` with `s = ceil(R/N)` (so its size is
`min(s, R − i·s)`, which is `s` for every part before the first point
where `i·s` reaches `R` and can be 0 for trailing parts on small
inputs); the sizes sum to `R` and concatenating the parts in order
reconstructs the input exactly. 100 rows into 12 parts gives 11 parts of
9 rows and one part of 1 row. -/
theorem split_csv_partition {α : Type} (rows : List α) (N : Nat) (hN : 1 ≤ N) :
    (split_csv rows N).length = N ∧
    (split_csv rows N).flatten = rows ∧
    ((split_csv rows N).map List.length).sum = rows.length ∧
    (∀ i, i < N → (split_csv rows N).getD i [] =
      (rows.drop (i * ceilDiv rows.length N)).take (ceilDiv rows.length N)) ∧
    (∀ i, i < N → ((split_csv rows N).getD i []).length =
      min (ceilDiv rows.length N) (rows.length - i * ceilDiv rows.length N)) ∧
    ((split_csv (List.range 100) 12).map List.length = List.replicate 11 9 ++ [1]) := by
  have hflat : (split_csv rows N).flatten = rows := by
    unfold split_csv
    rw [chunksFlatten]
    exact List.take_of_length_le (le_mul_ceilDiv rows.length N hN)
  have hgetD : ∀ i, i < N → (split_csv rows N).getD i [] =
      (rows.drop (i * ceilDiv rows.length N)).take (ceilDiv rows.length N) := by
    intro i hi
    unfold split_csv
    rw [List.getD_eq_getElem?_getD, List.getElem?_map, List.getElem?_range hi]
    rfl
  refine ⟨by simp [split_csv], hflat, ?_, hgetD, ?_, by decide⟩
  · rw [← List.length_flatten, hflat]
  · intro i hi
    rw [hgetD i hi, List.length_take, List.length_drop]

/-- Witness for C3 (amended) at a 3-row input split into 2 parts
(`s = 2`, sizes [2, 1]). -/
theorem split_csv_partition_witness :
    (split_csv [(10 : Nat), 20, 30] 2).length = 2 ∧
    (split_csv [(10 : Nat), 20, 30] 2).flatten = [10, 20, 30] ∧
    ((split_csv [(10 : Nat), 20, 30] 2).map List.length).sum = [(10 : Nat), 20, 30].length ∧
    (∀ i, i < 2 → (split_csv [(10 : Nat), 20, 30] 2).getD i [] =
      ([(10 : Nat), 20, 30].drop (i * ceilDiv [(10 : Nat), 20, 30].length 2)).take
        (ceilDiv [(10 : Nat), 20, 30].length 2)) ∧
    (∀ i, i < 2 → ((split_csv [(10 : Nat), 20, 30] 2).getD i []).length =
      min (ceilDiv [(10 : Nat), 20, 30].length 2)
        ([(10 : Nat), 20, 30].length - i * ceilDiv [(10 : Nat), 20, 30].length 2)) ∧
    ((split_csv (List.range 100) 12).map List.length = List.replicate 11 9 ++ [1]) :=
  split_csv_partition [(10 : Nat), 20, 30] 2 (by omega)

/-! ### C10: delimiter detection tie-breaking -/

theorem pyMax4_eq0 (a b c d : Nat) (h1 : b ≤ a) (h2 : c ≤ a) (h3 : d ≤ a) :
    pyMax [a, b, c, d] = a := by
  simp only [pyMax, List.foldl, Nat.max_def]
  split_ifs <;> omega

theorem pyMax4_eq1 (a b c d : Nat) (h0 : a ≤ b) (h2 : c ≤ b) (h3 : d ≤ b) :
    pyMax [a, b, c, d] = b := by
  simp only [pyMax, List.foldl, Nat.max_def]
  split_ifs <;> omega

theorem pyMax4_eq2 (a b c d : Nat) (h0 : a ≤ c) (h1 : b ≤ c) (h3 : d ≤ c) :
    pyMax [a, b, c, d] = c := by
  simp only [pyMax, List.foldl, Nat.max_def]
  split_ifs <;> omega

theorem pyMax4_eq3 (a b c d : Nat) (h0 : a ≤ d) (h1 : b ≤ d) (h2 : c ≤ d) :
    pyMax [a, b, c, d] = d := by
  simp only [pyMax, List.foldl, Nat.max_def]
  split_ifs <;> omega

theorem pyIndex4_eq0 (a b c d : Nat) :
    pyIndex a [a, b, c, d] = 0 := by
  simp [pyIndex]

theorem pyIndex4_eq1 (a b c d : Nat) (h0 : a ≠ b) :
    pyIndex b [a, b, c, d] = 1 := by
  simp [pyIndex, h0]

theorem pyIndex4_eq2 (a b c d : Nat) (h0 : a ≠ c) (h1 : b ≠ c) :
    pyIndex c [a, b, c, d] = 2 := by
  simp [pyIndex, h0, h1]

theorem pyIndex4_eq3 (a b c d : Nat) (h0 : a ≠ d) (h1 : b ≠ d) (h2 : c ≠ d) :
    pyIndex d [a, b, c, d] = 3 := by
  simp [pyIndex, h0, h1, h2]

/-- C10: `delimiters[counts.index(max(counts))]` picks the candidate with
the most occurrences in the first line, and on a tie the one earliest in
the fixed order comma, tab, semicolon, pipe; in particular a line with
none of the four candidates yields the comma (index 0 of an all-zero
count list). -/
theorem detect_delimiter_first_max (line : String) (i : Nat) (hi : i < 4)
    (hmax : ∀ j, j < 4 →
      countChar line (delims.getD j ' ') ≤ countChar line (delims.getD i ' '))
    (hfirst : ∀ j, j < i →
      countChar line (delims.getD j ' ') < countChar line (delims.getD i ' ')) :
    detectDelimiter line = delims.getD i ' ' := by
  have hd : detectDelimiter line = delims.getD
      (pyIndex (pyMax [countChar line ',', countChar line '\t', countChar line ';',
        countChar line '|'])
        [countChar line ',', countChar line '\t', countChar line ';', countChar line '|']) ',' :=
    rfl
  interval_cases i
  · have h1 := hmax 1 (by omega)
    have h2 := hmax 2 (by omega)
    have h3 := hmax 3 (by omega)
    simp only [show delims.getD 0 ' ' = ',' from rfl, show delims.getD 1 ' ' = '\t' from rfl,
      show delims.getD 2 ' ' = ';' from rfl, show delims.getD 3 ' ' = '|' from rfl] at h1 h2 h3 ⊢
    rw [hd, pyMax4_eq0 _ _ _ _ h1 h2 h3, pyIndex4_eq0]
    rfl
  · have h0 := hfirst 0 (by omega)
    have h2 := hmax 2 (by omega)
    have h3 := hmax 3 (by omega)
    simp only [show delims.getD 0 ' ' = ',' from rfl, show delims.getD 1 ' ' = '\t' from rfl,
      show delims.getD 2 ' ' = ';' from rfl, show delims.getD 3 ' ' = '|' from rfl] at h0 h2 h3 ⊢
    rw [hd, pyMax4_eq1 _ _ _ _ (Nat.le_of_lt h0) h2 h3, pyIndex4_eq1 _ _ _ _ (Nat.ne_of_lt h0)]
    rfl
  · have h0 := hfirst 0 (by omega)
    have h1 := hfirst 1 (by omega)
    have h3 := hmax 3 (by omega)
    simp only [show delims.getD 0 ' ' = ',' from rfl, show delims.getD 1 ' ' = '\t' from rfl,
      show delims.getD 2 ' ' = ';' from rfl, show delims.getD 3 ' ' = '|' from rfl] at h0 h1 h3 ⊢
    rw [hd, pyMax4_eq2 _ _ _ _ (Nat.le_of_lt h0) (Nat.le_of_lt h1) h3,
      pyIndex4_eq2 _ _ _ _ (Nat.ne_of_lt h0) (Nat.ne_of_lt h1)]
    rfl
  · have h0 := hfirst 0 (by omega)
    have h1 := hfirst 1 (by omega)
    have h2 := hfirst 2 (by omega)
    simp only [show delims.getD 0 ' ' = ',' from rfl, show delims.getD 1 ' ' = '\t' from rfl,
      show delims.getD 2 ' ' = ';' from rfl, show delims.getD 3 ' ' = '|' from rfl] at h0 h1 h2 ⊢
    rw [hd, pyMax4_eq3 _ _ _ _ (Nat.le_of_lt h0) (Nat.le_of_lt h1) (Nat.le_of_lt h2),
      pyIndex4_eq3 _ _ _ _ (Nat.ne_of_lt h0) (Nat.ne_of_lt h1) (Nat.ne_of_lt h2)]
    rfl

/-- Witness for C10: in `"x;y,z"` the comma and the semicolon tie with one
occurrence each, and the comma (earlier in the candidate order) wins. -/
theorem detect_delimiter_first_max_witness :
    detectDelimiter "x;y,z" = ',' := by
  have h := detect_delimiter_first_max "x;y,z" 0 (by omega) (by decide)
    (fun j hj => absurd hj (Nat.not_lt_zero j))
  simpa using h

/-! ### Structural lemmas about `impute_missing_values` -/

/-- Relation between a column and its image under the categorical loop of
`impute_missing_values`: text columns go through `imputeTxtCol`
successfully, all other columns are untouched. -/
def txtStepRel (cd cd' : ColData) : Prop :=
  match cd with
  | .txt cs => ∃ cs', cd' = ColData.txt cs' ∧ imputeTxtCol cs = .ok cs'
  | _ => cd' = cd

theorem imputeTxtPass_nil_ok (out : Dataset) (h : imputeTxtPass [] = .ok out) :
    out = [] := by
  simpa [imputeTxtPass] using h.symm

theorem imputeTxtPass_cons_ok (n : String) (cd : ColData) (l out : Dataset)
    (h : imputeTxtPass ((n, cd) :: l) = .ok out) :
    ∃ cd' rest', out = (n, cd') :: rest' ∧ imputeTxtPass l = .ok rest' ∧ txtStepRel cd cd' := by
  cases cd with
  | txt cs =>
    simp only [imputeTxtPass] at h
    cases hc : imputeTxtCol cs with
    | error e => rw [hc] at h; simp [Bind.bind, Except.bind] at h
    | ok cs' =>
      rw [hc] at h
      cases hr : imputeTxtPass l with
      | error e => rw [hr] at h; simp [Bind.bind, Except.bind] at h
      | ok rest' =>
        rw [hr] at h
        simp only [Bind.bind, Except.bind, pure, Except.pure, Except.ok.injEq] at h
        exact ⟨ColData.txt cs', rest', h.symm, rfl, cs', rfl, hc⟩
  | num cs =>
    simp only [imputeTxtPass] at h
    cases hr : imputeTxtPass l with
    | error e => rw [hr] at h; simp [Bind.bind, Except.bind] at h
    | ok rest' =>
      rw [hr] at h
      simp only [Bind.bind, Except.bind, pure, Except.pure, Except.ok.injEq] at h
      exact ⟨ColData.num cs, rest', h.symm, rfl, rfl⟩
  | date cs =>
    simp only [imputeTxtPass] at h
    cases hr : imputeTxtPass l with
    | error e => rw [hr] at h; simp [Bind.bind, Except.bind] at h
    | ok rest' =>
      rw [hr] at h
      simp only [Bind.bind, Except.bind, pure, Except.pure, Except.ok.injEq] at h
      exact ⟨ColData.date cs, rest', h.symm, rfl, rfl⟩

theorem fillEqSelf {α : Type} (cells : List (Option α)) (m : α)
    (h : cells.any (·.isNone) = false) :
    cells.map (fun c => some (c.getD m)) = cells := by
  refine listMapId ?_
  intro c hc
  cases c with
  | none =>
    exfalso
    have htrue : cells.any (·.isNone) = true := List.any_eq_true.mpr ⟨none, hc, rfl⟩
    rw [h] at htrue
    exact Bool.false_ne_true htrue
  | some a => rfl

theorem fillAllSome {α : Type} (cells : List (Option α)) (m : α) :
    (cells.map (fun c => some (c.getD m))).all (·.isSome) = true := by
  simp [List.all_map, Function.comp]

/-! ### C2: mean/mode imputation eliminates all missing cells -/

/-- What `impute_missing_values` guarantees for one column that holds at
least one non-missing value: afterwards it has no missing cell, numeric
columns are filled with `Series.mean()` of the column's own non-missing
values, text columns with `mode()[0]` (a most frequent non-missing
value); `date` columns cannot occur in the freshly loaded dataframe this
step runs on. -/
def imputedCol : ColData → ColData → Prop
  | .num cs, .num cs' =>
      nmQ cs ≠ [] →
        ∃ m, meanQ cs = some m ∧ cs' = cs.map (fun c => some (c.getD m)) ∧
          cs'.all (·.isSome) = true
  | .txt cs, .txt cs' =>
      nmS cs ≠ [] →
        ∃ m, (modeList cs).head? = some m ∧
          (∀ v ∈ nmS cs, (nmS cs).count v ≤ (nmS cs).count m) ∧
          cs' = cs.map (fun c => some (c.getD m)) ∧
          cs'.all (·.isSome) = true
  | _, _ => False

theorem imputedCol_of_num (cs : List NCell) :
    imputedCol (ColData.num cs) (ColData.num (imputeNumCol cs)) := by
  intro hne
  have hmean : meanQ cs = some ((nmQ cs).sum / ((nmQ cs).length : ℚ)) := by
    unfold meanQ
    rw [if_neg (by simpa [List.isEmpty_iff] using hne)]
  have himp : imputeNumCol cs =
      cs.map (fun c => some (c.getD ((nmQ cs).sum / ((nmQ cs).length : ℚ)))) := by
    unfold imputeNumCol
    cases hany : cs.any (·.isNone) with
    | true =>
      simp only [if_true]
      rw [hmean]
    | false =>
      simp only [Bool.false_eq_true, if_false]
      exact (fillEqSelf cs _ hany).symm
  exact ⟨_, hmean, by rw [himp], by rw [himp]; exact fillAllSome cs _⟩

theorem imputedCol_of_txt (cs cs' : List SCell) (h : imputeTxtCol cs = .ok cs') :
    imputedCol (ColData.txt cs) (ColData.txt cs') := by
  intro hne
  obtain ⟨m, hm⟩ : ∃ m, (modeList cs).head? = some m := by
    have hnn := modeList_ne_nil cs hne
    cases hl : modeList cs with
    | nil => exact absurd hl hnn
    | cons a t => exact ⟨a, rfl⟩
  obtain ⟨hmem, hcount, hmin⟩ := modeList_head_spec cs m hm
  have hcs' : cs' = cs.map (fun c => some (c.getD m)) := by
    unfold imputeTxtCol at h
    cases hany : cs.any (·.isNone) with
    | true =>
      rw [hany] at h
      simp only [if_true, hm, Except.ok.injEq] at h
      exact h.symm
    | false =>
      rw [hany] at h
      simp only [Bool.false_eq_true, if_false, Except.ok.injEq] at h
      rw [← h]
      exact (fillEqSelf cs m hany).symm
  refine ⟨m, hm, hcount, hcs', ?_⟩
  rw [hcs']
  exact fillAllSome cs m

/-- C2: when `impute_missing_values` completes, every column of the
(loaded, so date-free) dataframe that held at least one non-missing value
ends with zero missing cells, each missing cell filled with the single
representative value of that column's own non-missing values — the
arithmetic mean for numeric columns, the most frequent value for text
columns. -/
theorem imputation_fills_columns (df out : Dataset)
    (hload : ∀ c ∈ df, c.2.isDate = false)
    (h : impute_missing_values df = .ok out) :
    List.Forall₂ (fun a b => a.1 = b.1 ∧ imputedCol a.2 b.2) df out := by
  have main : ∀ (l : Dataset), (∀ c ∈ l, c.2.isDate = false) → ∀ o : Dataset,
      imputeTxtPass (l.map numPassCol) = .ok o →
      List.Forall₂ (fun a b => a.1 = b.1 ∧ imputedCol a.2 b.2) l o := by
    intro l
    induction l with
    | nil =>
      intro _ o ho
      rw [List.map_nil] at ho
      rw [imputeTxtPass_nil_ok o ho]
      exact List.Forall₂.nil
    | cons hd tl ih =>
      intro hl o ho
      rw [List.map_cons] at ho
      obtain ⟨n, cd⟩ := hd
      have htl : ∀ c ∈ tl, c.2.isDate = false :=
        fun c hc => hl c (List.mem_cons_of_mem _ hc)
      cases cd with
      | num cs =>
        rw [show numPassCol (n, ColData.num cs) = (n, ColData.num (imputeNumCol cs)) from rfl]
          at ho
        obtain ⟨cd', rest', hout, hrest, hrel⟩ := imputeTxtPass_cons_ok n _ _ o ho
        have hcd' : cd' = ColData.num (imputeNumCol cs) := hrel
        subst hcd'
        subst hout
        exact List.Forall₂.cons ⟨rfl, imputedCol_of_num cs⟩ (ih htl rest' hrest)
      | txt cs =>
        rw [show numPassCol (n, ColData.txt cs) = (n, ColData.txt cs) from rfl] at ho
        obtain ⟨cd', rest', hout, hrest, hrel⟩ := imputeTxtPass_cons_ok n _ _ o ho
        obtain ⟨cs', hcd', hcol⟩ := hrel
        subst hcd'
        subst hout
        exact List.Forall₂.cons ⟨rfl, imputedCol_of_txt cs cs' hcol⟩ (ih htl rest' hrest)
      | date cs =>
        have := hl (n, ColData.date cs) (List.mem_cons_self _ _)
        simp [ColData.isDate] at this
  exact main df hload out (by unfold impute_missing_values at h; exact h)

/-- Witness for C2: a numeric column `[1, NaN, 3]` is filled with its
mean 2 and a text column `["LC","LC","EN", NaN]` with its mode `"LC"`;
no missing cell remains. -/
theorem imputation_fills_columns_witness :
    List.Forall₂ (fun (a b : String × ColData) => a.1 = b.1 ∧ imputedCol a.2 b.2)
      [("a", ColData.num [some 1, none, some 3]),
       ("s", ColData.txt [some "LC", some "LC", some "EN", none])]
      [("a", ColData.num [some 1, some 2, some 3]),
       ("s", ColData.txt [some "LC", some "LC", some "EN", some "LC"])] := by
  have hmean : meanQ [some 1, none, some 3] = some 2 := by
    simp only [meanQ]
    rw [show nmQ [some 1, none, some 3] = [1, 3] from rfl,
      show ([1, 3] : List ℚ).isEmpty = false from rfl]
    simp only [Bool.false_eq_true, if_false, List.sum_cons, List.sum_nil, List.length_cons,
      List.length_nil, Option.some.injEq]
    norm_num
  have himpn : imputeNumCol [some 1, none, some 3] = [some 1, some 2, some 3] := by
    unfold imputeNumCol
    rw [show ([some (1 : ℚ), none, some 3].any (·.isNone)) = true from rfl, hmean]
    rfl
  apply imputation_fills_columns
  · intro c hc
    rcases List.mem_cons.mp hc with h | hc2
    · rw [h]; rfl
    · rcases List.mem_cons.mp hc2 with h | hc3
      · rw [h]; rfl
      · cases hc3
  · unfold impute_missing_values
    rw [show [("a", ColData.num [some 1, none, some 3]),
        ("s", ColData.txt [some "LC", some "LC", some "EN", none])].map numPassCol
      = [("a", ColData.num (imputeNumCol [some 1, none, some 3])),
         ("s", ColData.txt [some "LC", some "LC", some "EN", none])] from rfl, himpn]
    rfl

/-! ### C9: mode imputation and tie-breaking -/

/-- Counterexample to C9 as stated: in `["b","a","b","a", NaN]` the
values `"a"` and `"b"` tie with two occurrences each; the first such
value in the column is `"b"`, but `mode()[0]` returns the smallest of the
sorted modes, so the missing cell is filled with `"a"`, not `"b"`. -/
theorem mode_tie_counterexample :
    imputeTxtCol [some "b", some "a", some "b", some "a", none]
      = .ok [some "b", some "a", some "b", some "a", some "a"] ∧
    imputeTxtCol [some "b", some "a", some "b", some "a", none]
      ≠ .ok [some "b", some "a", some "b", some "a", some "b"] := by
  have hba : ¬ (("b" : String) ≤ "a") := by
    rw [String.le_iff_toList_le]
    decide
  have hcand : (nmS [some "b", some "a", some "b", some "a", none]).dedup.filter
      (fun v => decide (∀ w ∈ (nmS [some "b", some "a", some "b", some "a", none]).dedup,
        (nmS [some "b", some "a", some "b", some "a", none]).count w ≤
          (nmS [some "b", some "a", some "b", some "a", none]).count v)) = ["b", "a"] := by
    decide
  have hsort : List.insertionSort (α := String) (· ≤ ·) ["b", "a"] = ["a", "b"] := by
    simp [List.insertionSort, List.orderedInsert, hba]
  have hmode : modeList [some "b", some "a", some "b", some "a", none] = ["a", "b"] := by
    simp only [modeList]
    rw [hcand, hsort]
  have hfill : imputeTxtCol [some "b", some "a", some "b", some "a", none]
      = .ok [some "b", some "a", some "b", some "a", some "a"] := by
    unfold imputeTxtCol
    rw [show ([some "b", some "a", some "b", some "a", none].any (·.isNone)) = true from rfl,
      hmode]
    rfl
  refine ⟨hfill, ?_⟩
  rw [hfill]
  intro h
  simp at h

/-- C9 (amended): mode imputation of a text column fills every missing
cell with `mode()[0]`: a most frequent non-missing value, and on ties
the smallest one in ascending (sorted) order — not the first one
occurring in the column. (The `["LC","LC","EN",missing] ↦ "LC"` scenario
still holds: see the witness.) -/
theorem mode_imputation_fill (cells : List SCell) (m : String)
    (h : (modeList cells).head? = some m) :
    m ∈ nmS cells ∧
    (∀ v ∈ nmS cells, (nmS cells).count v ≤ (nmS cells).count m) ∧
    (∀ v ∈ nmS cells, (nmS cells).count v = (nmS cells).count m → m ≤ v) ∧
    imputeTxtCol cells = .ok (cells.map (fun c => some (c.getD m))) := by
  obtain ⟨h1, h2, h3⟩ := modeList_head_spec cells m h
  refine ⟨h1, h2, h3, ?_⟩
  unfold imputeTxtCol
  cases hany : cells.any (·.isNone) with
  | true => simp only [if_true, h]
  | false =>
    simp only [Bool.false_eq_true, if_false]
    rw [fillEqSelf cells m hany]

/-- Witness for C9 (amended): the `status` scenario — the mode of
`["LC","LC","EN", NaN]` is `"LC"` and the missing cell is filled with
it. -/
theorem mode_imputation_fill_witness :
    "LC" ∈ nmS [some "LC", some "LC", some "EN", none] ∧
    (∀ v ∈ nmS [some "LC", some "LC", some "EN", none],
      (nmS [some "LC", some "LC", some "EN", none]).count v ≤
        (nmS [some "LC", some "LC", some "EN", none]).count "LC") ∧
    (∀ v ∈ nmS [some "LC", some "LC", some "EN", none],
      (nmS [some "LC", some "LC", some "EN", none]).count v =
        (nmS [some "LC", some "LC", some "EN", none]).count "LC" → "LC" ≤ v) ∧
    imputeTxtCol [some "LC", some "LC", some "EN", none]
      = .ok [some "LC", some "LC", some "EN", some "LC"] :=
  mode_imputation_fill [some "LC", some "LC", some "EN", none] "LC" rfl

/-! ### C5: behavior on all-missing columns and (lack of) column isolation -/

theorem imputeTxtCol_error_msg (cs : List SCell) (e : String)
    (h : imputeTxtCol cs = .error e) : e = "KeyError: 0" := by
  unfold imputeTxtCol at h
  cases hany : cs.any (·.isNone) with
  | true =>
    rw [hany] at h
    simp only [if_true] at h
    cases hh : (modeList cs).head? with
    | none => rw [hh] at h; simp only [Except.error.injEq] at h; exact h.symm
    | some m => rw [hh] at h; simp at h
  | false =>
    rw [hany] at h
    simp at h

theorem allNone_filterMap_nil {α : Type} (cs : List (Option α))
    (hall : cs.all (·.isNone) = true) : cs.filterMap id = [] := by
  rw [List.filterMap_eq_nil_iff]
  intro a ha
  have := List.all_eq_true.mp hall a ha
  cases a with
  | none => rfl
  | some x => simp at this

theorem imputeTxtCol_all_missing (cs : List SCell) (hne : cs ≠ [])
    (hall : cs.all (·.isNone) = true) :
    imputeTxtCol cs = .error "KeyError: 0" := by
  have hany : cs.any (·.isNone) = true := by
    cases cs with
    | nil => exact absurd rfl hne
    | cons a t =>
      exact List.any_eq_true.mpr ⟨a, by simp, List.all_eq_true.mp hall a (by simp)⟩
  have hnm : nmS cs = [] := allNone_filterMap_nil cs hall
  have hml : modeList cs = [] := by
    have hnm' : List.filterMap id cs = [] := hnm
    simp only [modeList, nmS, hnm', List.dedup_nil, List.filter_nil]
    rfl
  unfold imputeTxtCol
  rw [hany, hml]
  rfl

theorem imputeTxtPass_error_of_bad (l : Dataset)
    (hbad : ∃ c ∈ l, ∃ cs, c.2 = ColData.txt cs ∧ cs ≠ [] ∧ cs.all (·.isNone) = true) :
    imputeTxtPass l = .error "KeyError: 0" := by
  induction l with
  | nil =>
    obtain ⟨c, hc, _⟩ := hbad
    cases hc
  | cons hd tl ih =>
    obtain ⟨c, hc, cs0, hcs0, hne0, hall0⟩ := hbad
    obtain ⟨n, cd⟩ := hd
    cases cd with
    | txt cs =>
      cases hc' : imputeTxtCol cs with
      | error e =>
        have he := imputeTxtCol_error_msg cs e hc'
        subst he
        simp only [imputeTxtPass]
        rw [hc']
        rfl
      | ok cs' =>
        rcases List.mem_cons.mp hc with rfl | htl
        · have : cs = cs0 := by
            simpa [ColData.txt.injEq] using hcs0
          subst this
          rw [imputeTxtCol_all_missing cs hne0 hall0] at hc'
          cases hc'
        · have hrec := ih ⟨c, htl, cs0, hcs0, hne0, hall0⟩
          simp only [imputeTxtPass]
          rw [hc', hrec]
          rfl
    | num cs =>
      rcases List.mem_cons.mp hc with rfl | htl
      · cases hcs0
      · have hrec := ih ⟨c, htl, cs0, hcs0, hne0, hall0⟩
        simp only [imputeTxtPass]
        rw [hrec]
        rfl
    | date cs =>
      rcases List.mem_cons.mp hc with rfl | htl
      · cases hcs0
      · have hrec := ih ⟨c, htl, cs0, hcs0, hne0, hall0⟩
        simp only [imputeTxtPass]
        rw [hrec]
        rfl

/-- Counterexample to C5 as stated: on a dataframe whose first text
column is entirely missing, `impute_missing_values` raises an uncaught
`KeyError` (from `mode()[0]` on an empty mode list), so the second
column — which has a perfectly imputable missing cell — is never
processed: there is no column-level isolation in this step. -/
theorem impute_abort_counterexample :
    impute_missing_values [("s", ColData.txt [none, none]),
      ("t", ColData.txt [some "x", none])] = .error "KeyError: 0" ∧
    imputeTxtCol [some "x", none] = .ok [some "x", some "x"] := by
  constructor
  · rfl
  · rfl

/-- C5 (amended): an all-missing numeric column is left untouched (its
mean is NaN and `fillna(NaN)` is a no-op, with no warning beyond the
printed NaN fill value), but an all-missing, nonempty text column makes
`impute_missing_values` raise an uncaught `KeyError`, aborting the whole
step — including every column not yet processed; step 4.1 has no
column-level error isolation. -/
theorem impute_all_missing_behavior :
    (∀ cells : List NCell, cells.all (·.isNone) = true → imputeNumCol cells = cells) ∧
    (∀ df : Dataset,
      (∃ c ∈ df, ∃ cells, c.2 = ColData.txt cells ∧ cells ≠ [] ∧
        cells.all (·.isNone) = true) →
      impute_missing_values df = .error "KeyError: 0") := by
  constructor
  · intro cells hall
    unfold imputeNumCol
    cases hany : cells.any (·.isNone) with
    | false => simp
    | true =>
      have hnm : nmQ cells = [] := allNone_filterMap_nil cells hall
      have hmean : meanQ cells = none := by
        have hnm' : List.filterMap id cells = [] := hnm
        simp only [meanQ, nmQ, hnm']
        rfl
      rw [hmean]
      simp
  · intro df hbad
    obtain ⟨c, hc, cells, hcs, hne, hall⟩ := hbad
    unfold impute_missing_values
    apply imputeTxtPass_error_of_bad
    refine ⟨numPassCol c, List.mem_map_of_mem _ hc, cells, ?_, hne, hall⟩
    obtain ⟨n, cd⟩ := c
    have : cd = ColData.txt cells := hcs
    subst this
    exact hcs

/-- Witness for C5 (amended): a single all-missing text column makes the
whole imputation step fail. -/
theorem impute_all_missing_behavior_witness :
    impute_missing_values [("s", ColData.txt [none])] = .error "KeyError: 0" :=
  impute_all_missing_behavior.2 [("s", ColData.txt [none])]
    ⟨("s", ColData.txt [none]), by simp, [none], rfl, by simp, rfl⟩

/-! ### C1: numeric conversion of text columns -/

/-- Counterexample to C1 as stated: the column `["1","a"]` mixes a
numeric-parseable and a non-numeric value, so the claim says it must be
left as text, completely unchanged; but `convert_data_types` replaces it
whenever the coerced series has at least one non-null entry
(`notnull().any()`), so it becomes a numeric column `[1, NaN]` — the
parseable cell is converted and the non-numeric cell becomes missing. -/
theorem convert_partial_counterexample :
    convert_data_types (fun _ => none) (fun _ => none)
      [("c", ColData.txt [some "1", some "a"])]
      = [("c", ColData.num [some 1, none])] ∧
    ColData.num [some (1 : ℚ), none] ≠ ColData.txt [some "1", some "a"] := by
  have hp1 : parseNum "1" = some 1 := by
    rw [show parseNum "1" = some ((1 : ℚ) * ((digitsToNat ['1'] : ℕ) : ℚ)) from rfl,
      show digitsToNat ['1'] = 1 from rfl]
    norm_num
  have hpa : parseNum "a" = none := rfl
  have hconv : convertTxtCol [some "1", some "a"] = ColData.num [some 1, none] := by
    unfold convertTxtCol
    rw [show [some "1", some "a"].map (fun c => c.bind parseNum)
         = [parseNum "1", parseNum "a"] from rfl, hp1, hpa]
    rfl
  constructor
  · simp only [convert_data_types, List.map_cons, List.map_nil,
      show containsDate "c" = false from rfl, Bool.false_eq_true, if_false]
    rw [hconv]
  · simp

/-- C1 (amended): in `convert_data_types`, a text column (whose name does
not contain "date") is left unchanged iff none of its cells parses as
numeric; as soon as at least one cell parses, the whole column is
replaced by the coerced series, in which parseable cells carry their
parsed values and non-parseable or missing cells are missing — so mixed
columns are partially converted rather than left as text. -/
theorem convert_txt_condition (dS : String → Option String) (dN : ℚ → Option String)
    (n : String) (cells : List SCell) (hn : containsDate n = false) :
    (convertTxtCol cells = ColData.txt cells ↔
      ∀ c ∈ cells, ∀ s, c = some s → parseNum s = none) ∧
    ((∃ c ∈ cells, ∃ s, c = some s ∧ (parseNum s).isSome = true) →
      convertTxtCol cells = ColData.num (cells.map (fun c => c.bind parseNum))) ∧
    convert_data_types dS dN [(n, ColData.txt cells)] = [(n, convertTxtCol cells)] := by
  refine ⟨⟨?_, ?_⟩, ?_, ?_⟩
  · intro h c hc s hcs
    simp only [convertTxtCol] at h
    cases hany : (cells.map (fun c => c.bind parseNum)).any (·.isSome) with
    | true => rw [hany] at h; simp at h
    | false =>
      have hmem : (some s).bind parseNum ∈ cells.map (fun c => c.bind parseNum) := by
        rw [← hcs]
        exact List.mem_map_of_mem _ hc
      have hfalse : ((some s).bind parseNum).isSome = false := by
        cases hiss : ((some s).bind parseNum).isSome with
        | false => rfl
        | true =>
          have := List.any_eq_true.mpr ⟨_, hmem, hiss⟩
          rw [hany] at this
          cases this
      simp only [Option.some_bind] at hfalse
      cases hps : parseNum s with
      | none => rfl
      | some v => rw [hps] at hfalse; cases hfalse
  · intro hall
    simp only [convertTxtCol]
    have hany : (cells.map (fun c => c.bind parseNum)).any (·.isSome) = false := by
      cases hc : (cells.map (fun c => c.bind parseNum)).any (·.isSome) with
      | false => rfl
      | true =>
        obtain ⟨x, hx, hxs⟩ := List.any_eq_true.mp hc
        obtain ⟨c, hcmem, hcx⟩ := List.mem_map.mp hx
        cases c with
        | none => rw [← hcx] at hxs; cases hxs
        | some s =>
          have := hall (some s) hcmem s rfl
          rw [← hcx] at hxs
          simp only [Option.some_bind] at hxs
          rw [this] at hxs
          cases hxs
    rw [hany]
    rfl
  · intro ⟨c, hc, s, hcs, hps⟩
    simp only [convertTxtCol]
    have hany : (cells.map (fun c => c.bind parseNum)).any (·.isSome) = true := by
      refine List.any_eq_true.mpr ⟨(some s).bind parseNum, ?_, by simpa using hps⟩
      rw [← hcs]
      exact List.mem_map_of_mem _ hc
    rw [hany]
    rfl
  · unfold convert_data_types
    rw [List.map_cons, List.map_nil]
    simp only [hn, Bool.false_eq_true, if_false]

/-- Witness for C1 (amended): `["1","a"]` has a parseable cell, so the
column is converted, cell by cell, to the coerced values. -/
theorem convert_txt_condition_witness :
    convertTxtCol [some "1", some "a"]
      = ColData.num ([some "1", some "a"].map (fun c => c.bind parseNum)) :=
  (convert_txt_condition (fun _ => none) (fun _ => none) "c" [some "1", some "a"] rfl).2.1
    ⟨some "1", by simp, "1", rfl, rfl⟩

/-! ### Structural lemmas about the KNN write-back -/

theorem setNumCol_ok_spec (df : Dataset) (n : String) (cells : List ℚ) (df' : Dataset)
    (h : setNumCol df n cells = .ok df') :
    List.Forall₂ (fun (a b : String × ColData) => a.1 = b.1 ∧ a.2.length = b.2.length) df df' := by
  induction df generalizing df' with
  | nil => simp [setNumCol] at h
  | cons hd tl ih =>
    obtain ⟨m, cd⟩ := hd
    simp only [setNumCol] at h
    by_cases hmn : m = n
    · rw [if_pos hmn] at h
      by_cases hlen : cd.length = cells.length
      · rw [if_pos hlen] at h
        simp only [Except.ok.injEq] at h
        subst h
        refine List.Forall₂.cons ⟨rfl, ?_⟩ (List.forall₂_same.mpr (fun x _ => ⟨rfl, rfl⟩))
        simpa [ColData.length] using hlen
      · rw [if_neg hlen] at h
        cases h
    · rw [if_neg hmn] at h
      cases hrec : setNumCol tl n cells with
      | error e => rw [hrec] at h; cases h
      | ok tl' =>
        rw [hrec] at h
        simp only [Except.ok.injEq] at h
        subst h
        exact List.Forall₂.cons ⟨rfl, rfl⟩ (ih tl' hrec)

theorem forall₂_colLengths (df df' : Dataset)
    (h : List.Forall₂ (fun (a b : String × ColData) => a.1 = b.1 ∧ a.2.length = b.2.length) df df') :
    colLengths df' = colLengths df := by
  induction h with
  | nil => rfl
  | cons hab ht ih => simp only [colLengths, List.map_cons] at *; rw [ih, hab.2]

theorem forall₂_len_mem (df df' : Dataset) (R : Nat)
    (h : List.Forall₂ (fun (a b : String × ColData) => a.1 = b.1 ∧ a.2.length = b.2.length) df df')
    (hR : ∀ c ∈ df, c.2.length = R) : ∀ c ∈ df', c.2.length = R := by
  induction h with
  | nil => intro c hc; cases hc
  | cons hab ht ih =>
    intro c hc
    rcases List.mem_cons.mp hc with rfl | hc'
    · rw [← hab.2]
      exact hR _ (by simp)
    · exact ih (fun x hx => hR x (List.mem_cons_of_mem _ hx)) c hc'

theorem forall₂_name_mem (df df' : Dataset) (n : String) (cd : ColData)
    (h : List.Forall₂ (fun (a b : String × ColData) => a.1 = b.1 ∧ a.2.length = b.2.length) df df')
    (hmem : (n, cd) ∈ df) : ∃ cd', (n, cd') ∈ df' := by
  induction h with
  | nil => cases hmem
  | cons hab ht ih =>
    rename_i a b l₁ l₂
    rcases List.mem_cons.mp hmem with heq | hmem'
    · refine ⟨b.2, ?_⟩
      have hb1 : b.1 = n := by rw [← hab.1, ← heq]
      rw [show (n, b.2) = b by rw [← hb1]]
      simp
    · obtain ⟨cd', h'⟩ := ih hmem'
      exact ⟨cd', List.mem_cons_of_mem _ h'⟩

theorem setNumCol_ok_of_mem (df : Dataset) (n : String) (cd0 : ColData) (cells : List ℚ)
    (R : Nat) (hmem : (n, cd0) ∈ df) (hR : ∀ c ∈ df, c.2.length = R)
    (hcells : cells.length = R) :
    ∃ df', setNumCol df n cells = .ok df' := by
  induction df with
  | nil => cases hmem
  | cons hd tl ih =>
    obtain ⟨m, cd⟩ := hd
    simp only [setNumCol]
    by_cases hmn : m = n
    · rw [if_pos hmn]
      have hlen : cd.length = cells.length := by
        rw [hcells]
        exact hR (m, cd) (by simp)
      rw [if_pos hlen]
      exact ⟨_, rfl⟩
    · rw [if_neg hmn]
      have hmem' : (n, cd0) ∈ tl := by
        rcases List.mem_cons.mp hmem with heq | h'
        · exfalso
          apply hmn
          have := congrArg Prod.fst heq
          exact this.symm
        · exact h'
      obtain ⟨tl', htl'⟩ := ih hmem' (fun c hc => hR c (List.mem_cons_of_mem _ hc))
      rw [htl']
      exact ⟨_, rfl⟩

theorem writeBack_no_error (ns : List String) :
    ∀ (df : Dataset) (mat : Cols) (R : Nat),
      (∀ c ∈ df, c.2.length = R) →
      (∀ n ∈ ns, ∃ cd, (n, cd) ∈ df) →
      (∀ c ∈ mat, c.length = R) →
      ns.length ≤ mat.length →
      (writeBack df ns mat).2 = none := by
  induction ns with
  | nil => intro df mat R _ _ _ _; rfl
  | cons n ns' ih =>
    intro df mat R hR hns hmat hlen
    cases mat with
    | nil => simp at hlen
    | cons c cs =>
      obtain ⟨cd0, hcd0⟩ := hns n (by simp)
      obtain ⟨df', hdf'⟩ := setNumCol_ok_of_mem df n cd0 c R hcd0 hR (hmat c (by simp))
      have hspec := setNumCol_ok_spec df n c df' hdf'
      simp only [writeBack]
      rw [hdf']
      refine ih df' cs R (forall₂_len_mem df df' R hspec hR) ?_
        (fun x hx => hmat x (List.mem_cons_of_mem _ hx)) (by simpa using hlen)
      intro n' hn'
      obtain ⟨cd', hcd'⟩ := hns n' (List.mem_cons_of_mem _ hn')
      exact forall₂_name_mem df df' n' cd' hspec hcd'

theorem writeBack_colLengths (ns : List String) :
    ∀ (df : Dataset) (mat : Cols), colLengths (writeBack df ns mat).1 = colLengths df := by
  induction ns with
  | nil => intro df mat; rfl
  | cons n ns' ih =>
    intro df mat
    cases mat with
    | nil => rfl
    | cons c cs =>
      simp only [writeBack]
      cases hs : setNumCol df n c with
      | error e => rfl
      | ok df' =>
        rw [ih df' cs]
        exact forall₂_colLengths df df' (setNumCol_ok_spec df n c df' hs)

theorem keptCols_mem (df : Dataset) (n : String) (cs : List NCell)
    (h : (n, cs) ∈ keptCols df) : (n, ColData.num cs) ∈ df := by
  have h1 : (n, cs) ∈ numericCols df := List.mem_of_mem_filter h
  obtain ⟨c, hc, hfc⟩ := List.mem_filterMap.mp h1
  obtain ⟨m, cd⟩ := c
  cases cd with
  | num cs0 =>
    simp only [Option.some.injEq, Prod.mk.injEq] at hfc
    obtain ⟨rfl, rfl⟩ := hfc
    exact hc
  | txt cs0 => simp at hfc
  | date cs0 => simp at hfc

theorem forall₂_right_prop {α β : Type} (r : α → β → Prop) (P : α → Prop) (Q : β → Prop)
    (l : List α) (l' : List β) (h : List.Forall₂ r l l') (hP : ∀ a ∈ l, P a)
    (himp : ∀ a b, P a → r a b → Q b) : ∀ b ∈ l', Q b := by
  induction h with
  | nil => intro b hb; cases hb
  | cons hab ht ih =>
    intro b hb
    rcases List.mem_cons.mp hb with rfl | hb'
    · exact himp _ _ (hP _ (by simp)) hab
    · exact ih (fun a ha => hP a (List.mem_cons_of_mem _ ha)) b hb'

/-! ### C6: the KNN step is caught and atomic on error -/

/-- C6: for any dataframe with a uniform row count and any
`fit_transform` obeying scikit-learn's shape contract (the imputed matrix
has one column per input column, each with the input's row count), if an
exception is caught inside `knn_imputation` then the exception came from
`fit_transform` itself, before any write-back, and the working dataset is
returned exactly as it was after mean/mode imputation: no column is
modified by this step. -/
theorem knn_error_leaves_dataset (fit : List (List NCell) → Except String Cols)
    (df : Dataset) (e : String) (R : Nat)
    (hR : ∀ c ∈ df, c.2.length = R)
    (hfit : ∀ input mat, fit input = .ok mat →
      List.Forall₂ (fun (c0 : List NCell) (c : List ℚ) => c.length = c0.length) input mat)
    (herr : (knnBody fit df).2 = some e) :
    knn_imputation fit df = df ∧ (knnBody fit df).1 = df := by
  have hbody : (knnBody fit df).1 = df := by
    simp only [knnBody] at herr ⊢
    by_cases h1 : (numericCols df).isEmpty
    · rw [if_pos h1] at herr
      cases herr
    · rw [if_neg h1] at herr ⊢
      by_cases h2 : (keptCols df).isEmpty
      · rw [if_pos h2] at herr
        cases herr
      · rw [if_neg h2] at herr ⊢
        cases hf : fit ((keptCols df).map (·.2)) with
        | error e' => rfl
        | ok mat =>
          exfalso
          rw [hf] at herr
          have hkeptR : ∀ c0 ∈ (keptCols df).map (·.2), c0.length = R := by
            intro c0 hc0
            obtain ⟨⟨n, cs⟩, hkc, hsnd⟩ := List.mem_map.mp hc0
            have := hR (n, ColData.num cs) (keptCols_mem df n cs hkc)
            simp only [ColData.length] at this
            rw [← hsnd]
            exact this
          have hmatR : ∀ c ∈ mat, c.length = R :=
            forall₂_right_prop _ (fun c0 => c0.length = R) (fun c => c.length = R)
              _ _ (hfit _ mat hf) hkeptR
              (fun a b hPa hrab => hrab.trans hPa)
          have hnames : ∀ n ∈ (keptCols df).map (·.1), ∃ cd, (n, cd) ∈ df := by
            intro n hn
            obtain ⟨⟨n', cs⟩, hkc, hfst⟩ := List.mem_map.mp hn
            subst hfst
            exact ⟨ColData.num cs, keptCols_mem df n' cs hkc⟩
          have hlen : ((keptCols df).map (·.1)).length ≤ mat.length := by
            rw [List.length_map, ← (hfit _ mat hf).length_eq, List.length_map]
          have := writeBack_no_error ((keptCols df).map (·.1)) df mat R hR hnames hmatR hlen
          rw [this] at herr
          cases herr
  exact ⟨hbody, hbody⟩

/-- Witness for C6: a `fit_transform` that always raises leaves a one-row
dataframe untouched. -/
theorem knn_error_leaves_dataset_witness :
    knn_imputation (fun _ => .error "boom") [("a", ColData.num [some 1])]
      = [("a", ColData.num [some 1])] :=
  (knn_error_leaves_dataset (fun _ => .error "boom") [("a", ColData.num [some 1])] "boom" 1
    (by
      intro c hc
      rcases List.mem_cons.mp hc with rfl | h
      · rfl
      · cases h)
    (by intro input mat h; cases h)
    rfl).1

/-! ### C7: the cleaning pipeline never changes row counts -/

theorem imputeNumCol_length (cs : List NCell) : (imputeNumCol cs).length = cs.length := by
  unfold imputeNumCol
  by_cases h : cs.any (·.isNone) = true
  · rw [if_pos h]
    cases meanQ cs <;> simp
  · rw [if_neg h]

theorem imputeTxtCol_length (cs cs' : List SCell) (h : imputeTxtCol cs = .ok cs') :
    cs'.length = cs.length := by
  unfold imputeTxtCol at h
  by_cases hany : cs.any (·.isNone) = true
  · rw [if_pos hany] at h
    cases hm : (modeList cs).head? with
    | none => rw [hm] at h; cases h
    | some m =>
      rw [hm] at h
      simp only [Except.ok.injEq] at h
      rw [← h]
      simp
  · rw [if_neg hany] at h
    simp only [Except.ok.injEq] at h
    rw [← h]

theorem impute_ok_colLengths (df out : Dataset) (h : impute_missing_values df = .ok out) :
    colLengths out = colLengths df := by
  have main : ∀ l o : Dataset, imputeTxtPass (l.map numPassCol) = .ok o →
      colLengths o = colLengths l := by
    intro l
    induction l with
    | nil =>
      intro o ho
      rw [List.map_nil] at ho
      rw [imputeTxtPass_nil_ok o ho]
    | cons hd tl ih =>
      intro o ho
      rw [List.map_cons] at ho
      obtain ⟨n, cd⟩ := hd
      cases cd with
      | num cs =>
        rw [show numPassCol (n, ColData.num cs) = (n, ColData.num (imputeNumCol cs)) from rfl]
          at ho
        obtain ⟨cd', rest', hout, hrest, hrel⟩ := imputeTxtPass_cons_ok n _ _ o ho
        have hcd : cd' = ColData.num (imputeNumCol cs) := hrel
        subst hcd
        subst hout
        have h1 := ih rest' hrest
        simp only [colLengths, List.map_cons] at h1 ⊢
        rw [h1]
        congr 1
        simp [ColData.length, imputeNumCol_length]
      | txt cs =>
        rw [show numPassCol (n, ColData.txt cs) = (n, ColData.txt cs) from rfl] at ho
        obtain ⟨cd', rest', hout, hrest, hrel⟩ := imputeTxtPass_cons_ok n _ _ o ho
        obtain ⟨cs', hcd', hcol⟩ := hrel
        subst hcd'
        subst hout
        have h1 := ih rest' hrest
        simp only [colLengths, List.map_cons] at h1 ⊢
        rw [h1]
        congr 1
        simp [ColData.length, imputeTxtCol_length cs cs' hcol]
      | date cs =>
        rw [show numPassCol (n, ColData.date cs) = (n, ColData.date cs) from rfl] at ho
        obtain ⟨cd', rest', hout, hrest, hrel⟩ := imputeTxtPass_cons_ok n _ _ o ho
        have hcd : cd' = ColData.date cs := hrel
        subst hcd
        subst hout
        have h1 := ih rest' hrest
        simp only [colLengths, List.map_cons] at h1 ⊢
        rw [h1]
  exact main df out (by unfold impute_missing_values at h; exact h)

theorem knnBody_colLengths (fit : List (List NCell) → Except String Cols) (df : Dataset) :
    colLengths (knnBody fit df).1 = colLengths df := by
  simp only [knnBody]
  by_cases h1 : (numericCols df).isEmpty
  · rw [if_pos h1]
  · rw [if_neg h1]
    by_cases h2 : (keptCols df).isEmpty
    · rw [if_pos h2]
    · rw [if_neg h2]
      cases hf : fit ((keptCols df).map (·.2)) with
      | error e => rfl
      | ok mat => exact writeBack_colLengths _ df mat

theorem capCol_length (cs : List NCell) : (capCol cs).length = cs.length := by
  unfold capCol
  cases quantile (1/4) cs <;> cases quantile (3/4) cs <;> simp

theorem handle_outliers_colLengths (df : Dataset) :
    colLengths (handle_outliers df) = colLengths df := by
  unfold handle_outliers colLengths
  rw [List.map_map]
  refine List.map_congr_left ?_
  intro c _
  obtain ⟨n, cd⟩ := c
  cases cd <;> simp [ColData.length, capCol_length]

theorem convertTxtCol_length (cs : List SCell) : (convertTxtCol cs).length = cs.length := by
  unfold convertTxtCol
  by_cases h : ((cs.map (fun c => c.bind parseNum)).any (·.isSome)) = true
  · rw [if_pos h]
    simp [ColData.length]
  · rw [if_neg h]
    rfl

theorem convert_colLengths (dS : String → Option String) (dN : ℚ → Option String)
    (df : Dataset) : colLengths (convert_data_types dS dN df) = colLengths df := by
  unfold convert_data_types colLengths
  rw [List.map_map]
  refine List.map_congr_left ?_
  intro c _
  obtain ⟨n, cd⟩ := c
  cases cd with
  | num cs =>
    by_cases h : containsDate n = true
    · simp [h, ColData.length]
    · simp [h, ColData.length]
  | txt cs =>
    by_cases h : containsDate n = true
    · simp [h, ColData.length]
    · simp only [Function.comp_apply]
      rw [if_neg h]
      show (convertTxtCol cs).length = (ColData.txt cs).length
      rw [convertTxtCol_length]
      rfl
  | date cs => rfl

/-- C7: whenever the cleaning pipeline (mean/mode imputation, KNN
imputation, outlier capping, type coercion) completes, every column of
the cleaned dataset has exactly as many cells as it had in the input:
imputation fills cells, capping clamps values, and no step drops a
row. -/
theorem clean_data_row_counts (fit : List (List NCell) → Except String Cols)
    (dS : String → Option String) (dN : ℚ → Option String) (df out : Dataset)
    (h : clean_data fit dS dN df = .ok out) :
    colLengths out = colLengths df := by
  unfold clean_data at h
  cases him : impute_missing_values df with
  | error e => rw [him] at h; simp [Bind.bind, Except.bind] at h
  | ok d1 =>
    rw [him] at h
    simp only [Bind.bind, Except.bind, pure, Except.pure, Except.ok.injEq] at h
    subst h
    rw [convert_colLengths, handle_outliers_colLengths,
      show knn_imputation fit d1 = (knnBody fit d1).1 from rfl, knnBody_colLengths]
    exact impute_ok_colLengths df d1 him

/-- Witness for C7 at a two-row text dataset with a failing KNN fit:
the pipeline completes and the row count is unchanged. -/
theorem clean_data_row_counts_witness :
    clean_data (fun _ => .error "e") (fun _ => none) (fun _ => none)
      [("s", ColData.txt [some "x", none])]
      = .ok [("s", ColData.txt [some "x", some "x"])] ∧
    colLengths [("s", ColData.txt [some "x", some "x"])]
      = colLengths [("s", ColData.txt [some "x", none])] :=
  ⟨rfl, clean_data_row_counts (fun _ => .error "e") (fun _ => none) (fun _ => none)
    [("s", ColData.txt [some "x", none])] [("s", ColData.txt [some "x", some "x"])] rfl⟩
